import Mathlib

/-!
Verification of the TRINETRA ingestion / deduplication / retention / blacklist core.

This file shallowly embeds the relevant functions of `webapi/main.py` and
`src/snids.py` as executable Lean definitions and proves the specified
properties about them.

Modelling conventions:
* Python JSON values (`json.loads` output) are the inductive `JVal`; objects
  keep their field (insertion) order, as Python dicts do.
* The event log is a list of `Line`s: each line carries its byte length and
  the result of `json.loads` on it (`none` when `json.loads` raises).
* Persistent state (cursor file, alert-history document, blacklist file) is
  passed explicitly; persistence side effects are recorded in order in an
  effect trace (`Eff`, `BlEff`).  All functions model the exception-free
  execution of the Python code; an I/O failure swallowed by the Python
  `except` clauses is an environment failure outside the model.
* `random.randint(0, 999999)` draws are supplied by a `rands : List Nat`
  stream, consumed on use (values taken modulo 1000000).
* `hashlib.md5(...).hexdigest()` is an external digest; it is modelled by
  `md5hex`, a deterministic function of the input string.  No claim depends
  on the digest's internal structure, only on it being a function.
-/

namespace Trinetra

/- JSON values as returned by Python's `json.loads`.  Objects (`jobj`) keep
their field order; arrays and field lists are spelled as cons-chains so that
all recursion over values is structural and kernel-reducible. -/
mutual
inductive JVal where
  | jnull : JVal
  | jbool : Bool → JVal
  | jnum : Int → JVal
  | jstr : String → JVal
  | jarr : JArr → JVal
  | jobj : JFields → JVal
deriving DecidableEq
inductive JArr where
  | nil : JArr
  | cons : JVal → JArr → JArr
deriving DecidableEq
inductive JFields where
  | nil : JFields
  | cons : String → JVal → JFields → JFields
deriving DecidableEq
end

/-- Python truthiness of a JSON value (`if obj.get("alert"):`). -/
def JVal.truthy : JVal → Bool
  | .jnull => false
  | .jbool b => b
  | .jnum n => decide (n ≠ 0)
  | .jstr s => decide (s ≠ "")
  | .jarr .nil => false
  | .jarr (.cons _ _) => true
  | .jobj .nil => false
  | .jobj (.cons _ _ _) => true

/-- Whether a JSON value is an object (a Python `dict`). -/
def JVal.isObj : JVal → Bool
  | .jobj _ => true
  | _ => false

/-- Python `d.get(key, default)` on an object's field list (keys of a parsed
JSON object are unique, so first match is the binding). -/
def JFields.getD : JFields → String → JVal → JVal
  | .nil, _, d => d
  | .cons k v tl, key, d => if k = key then v else tl.getD key d

/-- Python `key in d`. -/
def JFields.hasKey : JFields → String → Bool
  | .nil, _ => false
  | .cons k _ tl, key => k = key || tl.hasKey key

/-- Python `d[key] = v`: replace the binding in place if the key exists,
otherwise append it at the end (dict insertion order). -/
def JFields.set : JFields → String → JVal → JFields
  | .nil, key, v => .cons key v .nil
  | .cons k w tl, key, v => if k = key then .cons k v tl else .cons k w (tl.set key v)

/-- Escaping for `json.dumps` string output (quote and backslash; the other
escapes never occur in the strings any claim touches). -/
def escChar (c : Char) : String :=
  if c = '\\' then "\\\\"
  else if c = '\"' then "\\\""
  else String.singleton c

/-- The `json.dumps` rendering of a string. -/
def jstrDump (s : String) : String := "\"" ++ String.join (s.toList.map escChar) ++ "\""

/-- Code-point lexicographic comparison of character lists: the order Python
uses to sort `str` keys under `sort_keys=True`. -/
def charListLe : List Char → List Char → Bool
  | [], _ => true
  | _ :: _, [] => false
  | c :: cs, d :: ds =>
      if c.toNat < d.toNat then true
      else if d.toNat < c.toNat then false
      else charListLe cs ds

/-- Code-point lexicographic comparison of strings. -/
def strLe (a b : String) : Bool := charListLe a.toList b.toList

/-- Insert a key/rendered-value pair into a key-sorted list. -/
def insertSorted (p : String × String) : List (String × String) → List (String × String)
  | [] => [p]
  | q :: qs => if strLe p.1 q.1 then p :: q :: qs else q :: insertSorted p qs

/-- Sort key/rendered-value pairs by key (`sort_keys=True`). -/
def sortByKey (ps : List (String × String)) : List (String × String) :=
  ps.foldr insertSorted []

/- Model of `json.dumps(v, sort_keys=True)` with the default separators. -/
mutual
def jdump : JVal → String
  | .jnull => "null"
  | .jbool true => "true"
  | .jbool false => "false"
  | .jnum n => toString n
  | .jstr s => jstrDump s
  | .jarr xs => "[" ++ String.intercalate ", " (jdumpArr xs) ++ "]"
  | .jobj fs =>
      "\x7b" ++ String.intercalate ", "
        ((sortByKey (jdumpFields fs)).map (fun p => jstrDump p.1 ++ ": " ++ p.2)) ++ "\x7d"
termination_by structural v => v
def jdumpArr : JArr → List String
  | .nil => []
  | .cons v tl => jdump v :: jdumpArr tl
termination_by structural xs => xs
def jdumpFields : JFields → List (String × String)
  | .nil => []
  | .cons k v tl => (k, jdump v) :: jdumpFields tl
termination_by structural fs => fs
end

/-- Model of `hashlib.md5(s.encode()).hexdigest()`: an external digest.
No claim inspects the digest's internal structure; every claim relies only
on the digest being a deterministic function of the input string. -/
def md5hex (s : String) : String := "md5_" ++ s

/-- `generate_alert_fingerprint` (webapi/main.py, lines 253-274).  The
argument is the parsed event object (always a dict at the call site).  When
the `alert` value is itself a dict the canonical seven-field dict is built
and hashed; any other `alert` value makes `alert.get(...)` raise, landing in
the `except` branch, which returns a fingerprint built from a
`random.randint(0, 999999)` draw taken from `rands`.  Returns the
fingerprint and the unconsumed remainder of `rands`. -/
def generate_alert_fingerprint (alert_obj : JFields) (rands : List Nat) : String × List Nat :=
  match alert_obj.getD "alert" (.jobj .nil) with
  | .jobj alert =>
      let fingerprint_data : JFields :=
        .cons "timestamp" (alert_obj.getD "timestamp" (.jstr ""))
        (.cons "signature" (alert.getD "signature" (.jstr ""))
        (.cons "signature_id" (alert.getD "signature_id" (.jstr ""))
        (.cons "severity" (alert.getD "severity" (.jstr ""))
        (.cons "src_ip" (alert_obj.getD "src_ip" (.jstr ""))
        (.cons "dest_ip" (alert_obj.getD "dest_ip" (.jstr ""))
        (.cons "proto" (alert_obj.getD "proto" (.jstr "")) .nil))))))
      (md5hex (jdump (.jobj fingerprint_data)), rands)
  | _ => ("random_" ++ toString (rands.headD 0 % 1000000), rands.tail)

/-- One line of the event log (`eve.json`): its byte length in the file
(newline included) and the result of `json.loads(line.strip())` — `none`
when `json.loads` raises on that line. -/
structure Line where
  len : Nat
  parsed : Option JVal
deriving DecidableEq

/-- Total byte size of a list of lines (the `f.tell()` value at end of
file). -/
def totalLen (ls : List Line) : Nat := (ls.map Line.len).sum

/-- The lines remaining after seeking to byte offset `pos`
(`f.seek(last_pos)` followed by iterating lines).  Offsets produced by the
code are always line boundaries; at such offsets this drops exactly the
already-consumed lines. -/
def suffixFrom : List Line → Nat → List Line
  | ls, 0 => ls
  | [], _ => []
  | l :: ls, pos => if pos < l.len then l :: ls else suffixFrom ls (pos - l.len)

/-- Body of the line loop of `store_new_alerts` (webapi/main.py, lines
289-298) for one line: parse, require a dict with a truthy `alert` value,
stamp `stored_at`, compute and attach `_fingerprint`.  Returns the alert to
append (if any) and the unconsumed randomness. -/
def processLine (l : Line) (now : String) (rands : List Nat) : Option JFields × List Nat :=
  match l.parsed with
  | some (.jobj fields) =>
      if (fields.getD "alert" .jnull).truthy then
        let withStamp := fields.set "stored_at" (.jstr now)
        let fpr := generate_alert_fingerprint withStamp rands
        (some (withStamp.set "_fingerprint" (.jstr fpr.1)), fpr.2)
      else (none, rands)
  | _ => (none, rands)

/-- The whole line loop: the collected `new_alerts` list and the unconsumed
randomness. -/
def processLines : List Line → String → List Nat → List JFields × List Nat
  | [], _, rands => ([], rands)
  | l :: ls, now, rands =>
      match processLine l now rands with
      | (some a, r) =>
          let rest := processLines ls now r
          (a :: rest.1, rest.2)
      | (none, r) => processLines ls now r

/-- The `_fingerprint` value of a stored alert (`alert['_fingerprint']`;
every alert built by `processLine` carries the key). -/
def fpD (a : JFields) : JVal := a.getD "_fingerprint" .jnull

/-- The `existing_fingerprints` set built from the loaded history
(webapi/main.py, lines 309-312): the `_fingerprint` values of the history
records that have one.  Membership is all that is used of the Python set. -/
def histFingerprints (h : List JFields) : List JVal :=
  h.filterMap (fun a => if a.hasKey "_fingerprint" then some (fpD a) else none)

/-- The duplicate-filter loop (webapi/main.py, lines 314-319): keep each new
alert whose fingerprint is not yet in `seen`, adding kept fingerprints to
`seen`.  Returns the kept alerts and the final `seen`. -/
def dedupFilter : List JFields → List JVal → List JFields × List JVal
  | [], seen => ([], seen)
  | a :: as, seen =>
      if fpD a ∈ seen then dedupFilter as seen
      else
        let rest := dedupFilter as (seen ++ [fpD a])
        (a :: rest.1, rest.2)

/-- The history-update block of `store_new_alerts` (webapi/main.py, lines
304-334): dedup the batch against the loaded history, append, cap at the
last 10000 (`history[-10000:]`), and save when anything new was kept.
Returns (new history document, whether `save_alert_history` ran, returned
count). -/
def ingestBatch (history : List JFields) (new_alerts : List JFields) :
    List JFields × Bool × Nat :=
  if new_alerts.isEmpty then (history, false, 0)
  else
    let existing_fingerprints := histFingerprints history
    let unique_new_alerts := (dedupFilter new_alerts existing_fingerprints).1
    if unique_new_alerts.isEmpty then (history, false, 0)
    else
      let h2 := history ++ unique_new_alerts
      let h3 := if 10000 < h2.length then h2.drop (h2.length - 10000) else h2
      (h3, true, unique_new_alerts.length)

/-- Persistence side effects of one `store_new_alerts` invocation, in
program order: `set_last_processed_position` and `save_alert_history`. -/
inductive Eff where
  | setCursor : Nat → Eff
  | saveHistory : List JFields → Eff
deriving DecidableEq

/-- Result of one `store_new_alerts` invocation: returned count, cursor-file
content, alert-history document, and the ordered effect trace. -/
structure StoreResult where
  ret : Nat
  cursorFile : Option Nat
  historyFile : List JFields
  effs : List Eff
deriving DecidableEq

/-- `store_new_alerts` (webapi/main.py, lines 276-336).  `eve` is the event
log (`none` when `EVE_PATH` does not exist), `cursorFile` the cursor file
content (`none` when absent or unreadable, read as 0), `historyFile` the
alert-history document (absent read as `[]`).  The cursor is written with
`f.tell()` after reading to end of file, which is `max last_pos (totalLen
lines)`; it is written inside the `with` block, before the history block
runs. -/
def store_new_alerts (eve : Option (List Line)) (cursorFile : Option Nat)
    (historyFile : List JFields) (now : String) (rands : List Nat) : StoreResult :=
  match eve with
  | none => StoreResult.mk 0 cursorFile historyFile []
  | some lines =>
      let last_pos := cursorFile.getD 0
      let new_alerts := (processLines (suffixFrom lines last_pos) now rands).1
      let current_pos := max last_pos (totalLen lines)
      let ib := ingestBatch historyFile new_alerts
      StoreResult.mk ib.2.2 (some current_pos) ib.1
        (Eff.setCursor current_pos :: (if ib.2.1 then [Eff.saveHistory ib.1] else []))

/-- Whether an effect is a `save_alert_history` write. -/
def isSaveHistory : Eff → Bool
  | .saveHistory _ => true
  | _ => false

/-- Whether some cursor write occurs strictly before some history write in a
trace — i.e. whether there is an intermediate point at which the new cursor
is persisted while the batch's alerts are not yet persisted. -/
def setCursorBeforeSave : List Eff → Bool
  | [] => false
  | .setCursor _ :: es => es.any isSaveHistory || setCursorBeforeSave es
  | .saveHistory _ :: es => setCursorBeforeSave es

/-- State of the blacklist (src/snids.py): the lines of
`/etc/suricata/rules/blacklist.txt` and the in-memory `blacklisted_ips` set
(represented as its insertion sequence; only membership and insertion are
used). -/
structure BlacklistState where
  fileLines : List String
  mem : List String
deriving DecidableEq

/-- Observable side effects of `add_ip_to_blacklist`: console notices, the
file append, and the `suricatasc reload-rules` notification. -/
inductive BlEff where
  | printMsg : String → BlEff
  | appendFile : String → BlEff
  | reloadRules : BlEff
deriving DecidableEq

/-- `add_ip_to_blacklist` (src/snids.py, lines 58-81).  The body runs under
`blacklist_lock`, so one call is atomic; the model is that atomic step.
Returns the new state and the ordered effect trace. -/
def add_ip_to_blacklist (ip : String) (s : BlacklistState) : BlacklistState × List BlEff :=
  if ip ∈ s.mem then
    (s, [.printMsg ("[BLACKLIST] " ++ ip ++ " already blacklisted.")])
  else
    (BlacklistState.mk (s.fileLines ++ [ip]) (s.mem ++ [ip]),
     [.appendFile ip,
      .printMsg ("[BLACKLIST] IP " ++ ip ++ " has been added to /etc/suricata/rules/blacklist.txt."),
      .reloadRules])

/-- A CSV capture file on disk: name and `st_mtime` (seconds; the fractional
part of the Python float is irrelevant to every comparison made). -/
structure CsvFile where
  name : String
  mtime : Int
deriving DecidableEq

/-- `cleanup_old_csvs` (webapi/main.py, lines 117-133): delete the transient
CSVs with `st_mtime < time.time() - max_age_minutes * 60`.  Returns the
surviving transient files and the deleted count.  Only `CSV_DIR` is
scanned; the saved directory is never touched. -/
def cleanup_old_csvs (csvDir : List CsvFile) (now : Int) (max_age_minutes : Int) :
    List CsvFile × Nat :=
  let cutoff_time := now - max_age_minutes * 60
  (csvDir.filter (fun p => ¬ p.mtime < cutoff_time),
   (csvDir.filter (fun p => p.mtime < cutoff_time)).length)

/-- One entry of the `list_csv_files` result (name, mtime, saved flag; the
derived `age_minutes` field carries no extra information). -/
structure ListedFile where
  name : String
  mtime : Int
  saved : Bool
deriving DecidableEq

/-- Insert into a list sorted by decreasing mtime. -/
def insertDesc (f : ListedFile) : List ListedFile → List ListedFile
  | [] => [f]
  | g :: gs => if g.mtime ≤ f.mtime then f :: g :: gs else g :: insertDesc f gs

/-- Sort newest-first by mtime (`files_info.sort(key=..., reverse=True)`). -/
def sortDesc (fs : List ListedFile) : List ListedFile :=
  fs.foldr insertDesc []

/-- `list_csv_files` (webapi/main.py, lines 72-114): transient files within
the age limit (`st_mtime >= cutoff_time`), plus the saved files when
requested, sorted newest-first. -/
def list_csv_files (csvDir savedDir : List CsvFile) (include_saved : Bool)
    (now : Int) (max_age_minutes : Int) : List ListedFile :=
  let cutoff_time := now - max_age_minutes * 60
  let transient := (csvDir.filter (fun p => cutoff_time ≤ p.mtime)).map
    (fun p => ListedFile.mk p.name p.mtime false)
  let saved := if include_saved then savedDir.map (fun p => ListedFile.mk p.name p.mtime true)
    else []
  sortDesc (transient ++ saved)

/-- Outcome of `api_save_csv`: `notFound` models the HTTP 404
`HTTPException`, the other two the success responses. -/
inductive SaveCsvResult where
  | notFound : SaveCsvResult
  | alreadySaved : SaveCsvResult
  | savedOk : SaveCsvResult
deriving DecidableEq

/-- `api_save_csv` (webapi/main.py, lines 414-432): 404 when the transient
source is absent, no-op success when the target is already saved, otherwise
copy into the saved directory.  Directories are represented by their file
names.  Returns the outcome and the new saved directory. -/
def api_save_csv (name : String) (csvDir savedDir : List String) :
    SaveCsvResult × List String :=
  if ¬ name ∈ csvDir then (.notFound, savedDir)
  else if name ∈ savedDir then (.alreadySaved, savedDir)
  else (.savedOk, savedDir ++ [name])

/-! Auxiliary definitions used to state the properties. -/

/-- A line is well behaved when, if it parses to a dict with a truthy
`alert` value, that value is itself a dict — i.e. fingerprinting it does not
fall into the random `except` branch. -/
def Line.ok (l : Line) : Bool :=
  match l.parsed with
  | some (.jobj fs) => !(fs.getD "alert" .jnull).truthy || (fs.getD "alert" .jnull).isObj
  | _ => true

/-- The parsed field set of a line that `store_new_alerts` stores: the line
parses to a dict with a truthy `alert` value. -/
def keptFields (l : Line) : Option JFields :=
  match l.parsed with
  | some (.jobj fs) => if (fs.getD "alert" .jnull).truthy then some fs else none
  | _ => none

/-- The field sets of the lines a batch stores, in order. -/
def storedFields (ls : List Line) : List JFields := ls.filterMap keptFields

/-- The content fingerprint of a well-behaved record: what
`generate_alert_fingerprint` computes on it, a function of the canonical
fields only. -/
def canonicalFp (fs : JFields) : String := (generate_alert_fingerprint fs []).1

/-- What `processLine` makes of a stored record: `stored_at` stamped and the
fingerprint attached. -/
def stampFp (now : String) (fs : JFields) : JFields :=
  (fs.set "stored_at" (.jstr now)).set "_fingerprint" (.jstr (canonicalFp fs))

/-- Induction along the field-list spine (the dict lemmas never recurse into
the values, so the mutual eliminator is not needed). -/
def JFields.indOn {motive : JFields → Prop} (nil : motive .nil)
    (cons : ∀ k v tl, motive tl → motive (.cons k v tl)) : ∀ fs, motive fs
  | .nil => nil
  | .cons k v tl => cons k v tl (JFields.indOn nil cons tl)
termination_by structural fs => fs

/-! Concrete sample data used by the witnesses and counterexamples. -/

/-- A typical `alert` descriptor. -/
def exAlert : JFields :=
  .cons "signature" (.jstr "ET SCAN Nmap")
    (.cons "signature_id" (.jnum 2009582) (.cons "severity" (.jnum 2) .nil))

/-- A typical well-formed event record. -/
def exFields : JFields :=
  .cons "timestamp" (.jstr "2024-05-01T10:00:00")
    (.cons "src_ip" (.jstr "10.0.0.5")
    (.cons "dest_ip" (.jstr "10.0.0.1")
    (.cons "proto" (.jstr "TCP")
    (.cons "alert" (.jobj exAlert) .nil))))

/-- A well-formed event-log line carrying an alert. -/
def exLineGood : Line := Line.mk 120 (some (.jobj exFields))

/-- A second well-formed alert line, with a different signature. -/
def exLineGood2 : Line :=
  Line.mk 130 (some (.jobj
    (.cons "timestamp" (.jstr "2024-05-01T10:00:01")
    (.cons "src_ip" (.jstr "10.0.0.6")
    (.cons "dest_ip" (.jstr "10.0.0.1")
    (.cons "proto" (.jstr "UDP")
    (.cons "alert" (.jobj (.cons "signature" (.jstr "ET DOS flood") .nil)) .nil)))))))

/-- A line `json.loads` rejects. -/
def exLineBad : Line := Line.mk 17 none

/-- A parseable line without an `alert` object. -/
def exLineNoAlert : Line :=
  Line.mk 40 (some (.jobj (.cons "event_type" (.jstr "dns") .nil)))

/-- The record of `exLineGood` reordered, with an unrecognized extra field. -/
def exReordered : JFields :=
  .cons "alert" (.jobj exAlert)
    (.cons "proto" (.jstr "TCP")
    (.cons "dest_ip" (.jstr "10.0.0.1")
    (.cons "src_ip" (.jstr "10.0.0.5")
    (.cons "flow_id" (.jnum 714201)
    (.cons "timestamp" (.jstr "2024-05-01T10:00:00") .nil)))))

/-- A stored-history record with fingerprint "old". -/
def exOldRec : JFields := .cons "_fingerprint" (.jstr "old") .nil

/-- A record with the fresh fingerprint "new". -/
def exNewRec : JFields := .cons "_fingerprint" (.jstr "new") .nil

/-- A history document already at the retention cap. -/
def exHistFull : List JFields := List.replicate 10000 exOldRec

/-- The stored form of `exFields` from an earlier ingestion. -/
def exStored : JFields := stampFp "2024-05-01T10:00:05" exFields

/-- The same record re-read later: different `stored_at`, same fingerprint. -/
def exDup : JFields := stampFp "2024-05-01T10:09:59" exFields

/-- A transient capture file whose age is exactly at the cutoff. -/
def exEdge : CsvFile := CsvFile.mk "edge.csv" 0

/-- A transient capture file one second older than the cutoff. -/
def exOlder : CsvFile := CsvFile.mk "old.csv" (-1)

/-! Lemmas about dict operations. -/

theorem JFields.getD_set_self (fs : JFields) (key : String) (v d : JVal) :
    (fs.set key v).getD key d = v := by
  induction fs using JFields.indOn with
  | nil => simp [JFields.set, JFields.getD]
  | cons k w tl ih =>
      by_cases h : k = key
      · simp [JFields.set, JFields.getD, h]
      · simp [JFields.set, JFields.getD, h, ih]

theorem JFields.getD_set_ne (fs : JFields) (key k : String) (v d : JVal)
    (h : k ≠ key) : (fs.set key v).getD k d = fs.getD k d := by
  have hne : ¬ (key = k) := fun hh => h hh.symm
  induction fs using JFields.indOn with
  | nil => simp [JFields.set, JFields.getD, hne]
  | cons k' w tl ih =>
      by_cases h' : k' = key
      · subst h'
        simp [JFields.set, JFields.getD, hne]
      · simp [JFields.set, JFields.getD, h', ih]

theorem JFields.hasKey_set_self (fs : JFields) (key : String) (v : JVal) :
    (fs.set key v).hasKey key = true := by
  induction fs using JFields.indOn with
  | nil => simp [JFields.set, JFields.hasKey]
  | cons k w tl ih =>
      by_cases h : k = key
      · simp [JFields.set, JFields.hasKey, h]
      · simp [JFields.set, JFields.hasKey, h, ih]

theorem JFields.getD_congr (fs : JFields) (k : String) (d1 d2 : JVal)
    (h : fs.hasKey k = true) : fs.getD k d1 = fs.getD k d2 := by
  induction fs using JFields.indOn with
  | nil => simp [JFields.hasKey] at h
  | cons k' w tl ih =>
      by_cases h' : k' = k
      · simp [JFields.getD, h']
      · simp [JFields.hasKey, h'] at h
        simp [JFields.getD, h', ih h]

theorem JFields.getD_of_hasKey_false (fs : JFields) (k : String) (d : JVal)
    (h : fs.hasKey k = false) : fs.getD k d = d := by
  induction fs using JFields.indOn with
  | nil => simp [JFields.getD]
  | cons k' w tl ih =>
      simp [JFields.hasKey] at h
      simp [JFields.getD, h.1, ih h.2]

theorem JFields.getD_truthy_congr (fs : JFields) (k : String) (d : JVal)
    (h : (fs.getD k .jnull).truthy = true) : fs.getD k d = fs.getD k .jnull := by
  by_cases hk : fs.hasKey k = true
  · exact fs.getD_congr k d .jnull hk
  · rw [fs.getD_of_hasKey_false k .jnull (by simpa using hk)] at h
    simp [JVal.truthy] at h

/-! Lemmas about byte offsets. -/

theorem totalLen_nil : totalLen [] = 0 := rfl

theorem totalLen_cons (l : Line) (ls : List Line) :
    totalLen (l :: ls) = l.len + totalLen ls := by
  simp [totalLen]

theorem suffixFrom_zero (ls : List Line) : suffixFrom ls 0 = ls := by
  cases ls <;> rfl

theorem suffixFrom_append (ls ext : List Line) (hpos : ∀ l ∈ ls, 0 < l.len) :
    suffixFrom (ls ++ ext) (totalLen ls) = ext := by
  induction ls with
  | nil => simpa [totalLen_nil] using suffixFrom_zero ext
  | cons l ls ih =>
      have hl : 0 < l.len := hpos l (by simp)
      rw [totalLen_cons]
      obtain ⟨m, hm⟩ : ∃ m, l.len + totalLen ls = m + 1 := ⟨l.len + totalLen ls - 1, by omega⟩
      rw [hm]
      have hnlt : ¬ m + 1 < l.len := by omega
      have hsub : m + 1 - l.len = totalLen ls := by omega
      simp only [List.cons_append, suffixFrom, hnlt, if_false, hsub]
      exact ih (fun x hx => hpos x (by simp [hx]))

theorem suffixFrom_totalLen (ls : List Line) (hpos : ∀ l ∈ ls, 0 < l.len) :
    suffixFrom ls (totalLen ls) = [] := by
  simpa using suffixFrom_append ls [] hpos

/-! Lemmas about the duplicate filter. -/

theorem dedupFilter_snd (as : List JFields) (seen : List JVal) :
    (dedupFilter as seen).2 = seen ++ (dedupFilter as seen).1.map fpD := by
  induction as generalizing seen with
  | nil => simp [dedupFilter]
  | cons a as ih =>
      by_cases h : fpD a ∈ seen
      · simp [dedupFilter, h, ih]
      · simp only [dedupFilter, h, if_false, if_neg h, List.map_cons]
        rw [ih (seen ++ [fpD a])]
        simp

theorem mem_dedupFilter_snd (as : List JFields) (seen : List JVal) (a : JFields)
    (ha : a ∈ as) : fpD a ∈ (dedupFilter as seen).2 := by
  induction as generalizing seen with
  | nil => cases ha
  | cons b as ih =>
      rcases List.mem_cons.mp ha with hab | ha'
      · subst hab
        by_cases h : fpD a ∈ seen
        · rw [dedupFilter_snd]
          simp [dedupFilter, h]
        · simp only [dedupFilter, h, if_neg h]
          rw [dedupFilter_snd]
          simp
      · by_cases h : fpD b ∈ seen
        · simpa [dedupFilter, h] using ih seen ha'
        · simpa [dedupFilter, h] using ih (seen ++ [fpD b]) ha'

theorem dedupFilter_fst_nil (as : List JFields) (seen : List JVal)
    (h : ∀ a ∈ as, fpD a ∈ seen) : (dedupFilter as seen).1 = [] := by
  induction as with
  | nil => rfl
  | cons a as ih =>
      have ha : fpD a ∈ seen := h a (by simp)
      simp only [dedupFilter, ha, if_pos ha]
      exact ih (fun b hb => h b (by simp [hb]))

theorem dedupFilter_fresh (as : List JFields) (seen : List JVal)
    (hnd : (as.map fpD).Nodup) (hfresh : ∀ a ∈ as, fpD a ∉ seen) :
    (dedupFilter as seen).1 = as := by
  induction as generalizing seen with
  | nil => rfl
  | cons a as ih =>
      have ha : fpD a ∉ seen := hfresh a (by simp)
      simp only [List.map_cons, List.nodup_cons] at hnd
      simp only [dedupFilter, if_neg ha]
      have : (dedupFilter as (seen ++ [fpD a])).1 = as := by
        refine ih (seen ++ [fpD a]) hnd.2 (fun b hb => ?_)
        simp only [List.mem_append, List.mem_singleton]
        rintro (hs | he)
        · exact hfresh b (by simp [hb]) hs
        · exact hnd.1 (he ▸ List.mem_map_of_mem fpD hb)
      simp [this]

theorem dedupFilter_sublist (as : List JFields) (seen : List JVal) :
    (dedupFilter as seen).1.Sublist as := by
  induction as generalizing seen with
  | nil => simp [dedupFilter]
  | cons a as ih =>
      by_cases h : fpD a ∈ seen
      · simp only [dedupFilter, if_pos h]
        exact (ih seen).cons a
      · simp only [dedupFilter, if_neg h]
        exact (ih (seen ++ [fpD a])).cons₂ a

/-! Lemmas about the fingerprint set of a history document. -/

theorem histFingerprints_append (h1 h2 : List JFields) :
    histFingerprints (h1 ++ h2) = histFingerprints h1 ++ histFingerprints h2 := by
  simp [histFingerprints]

theorem histFingerprints_eq_map (h : List JFields)
    (hk : ∀ a ∈ h, a.hasKey "_fingerprint" = true) :
    histFingerprints h = h.map fpD := by
  induction h with
  | nil => rfl
  | cons a h ih =>
      simp only [histFingerprints, List.filterMap_cons, hk a (by simp), if_pos]
      simp only [histFingerprints] at ih
      rw [ih (fun b hb => hk b (by simp [hb]))]
      rfl

theorem mem_histFingerprints (h : List JFields) (v : JVal) :
    v ∈ histFingerprints h ↔
      ∃ b, b ∈ h ∧ b.hasKey "_fingerprint" = true ∧ fpD b = v := by
  simp only [histFingerprints, List.mem_filterMap]
  constructor
  · rintro ⟨b, hb, hbv⟩
    by_cases hk : b.hasKey "_fingerprint" = true
    · rw [if_pos hk] at hbv
      exact ⟨b, hb, hk, Option.some_injective _ hbv⟩
    · rw [if_neg hk] at hbv
      cases hbv
  · rintro ⟨b, hb, hk, hbv⟩
    exact ⟨b, hb, by rw [if_pos hk, hbv]⟩

/-! Lemmas about fingerprinting. -/

theorem generate_alert_fingerprint_congr
    (o1 o2 a1 a2 : JFields) (r1 r2 : List Nat)
    (h1 : o1.getD "alert" (.jobj .nil) = .jobj a1)
    (h2 : o2.getD "alert" (.jobj .nil) = .jobj a2)
    (hts : o1.getD "timestamp" (.jstr "") = o2.getD "timestamp" (.jstr ""))
    (hsig : a1.getD "signature" (.jstr "") = a2.getD "signature" (.jstr ""))
    (hsid : a1.getD "signature_id" (.jstr "") = a2.getD "signature_id" (.jstr ""))
    (hsev : a1.getD "severity" (.jstr "") = a2.getD "severity" (.jstr ""))
    (hsrc : o1.getD "src_ip" (.jstr "") = o2.getD "src_ip" (.jstr ""))
    (hdst : o1.getD "dest_ip" (.jstr "") = o2.getD "dest_ip" (.jstr ""))
    (hpr : o1.getD "proto" (.jstr "") = o2.getD "proto" (.jstr "")) :
    (generate_alert_fingerprint o1 r1).1 = (generate_alert_fingerprint o2 r2).1 := by
  simp only [generate_alert_fingerprint, h1, h2, hts, hsig, hsid, hsev, hsrc, hdst, hpr]

theorem generate_alert_fingerprint_wf (fs a : JFields) (r : List Nat)
    (h : fs.getD "alert" (.jobj .nil) = .jobj a) :
    generate_alert_fingerprint fs r = (canonicalFp fs, r) := by
  have hfst : (generate_alert_fingerprint fs r).1 = (generate_alert_fingerprint fs []).1 :=
    generate_alert_fingerprint_congr fs fs a a r [] h h rfl rfl rfl rfl rfl rfl rfl
  have hsnd : (generate_alert_fingerprint fs r).2 = r := by
    simp only [generate_alert_fingerprint, h]
  rw [Prod.ext_iff]
  exact ⟨hfst, hsnd⟩

theorem generate_alert_fingerprint_stamped (fs a : JFields) (now : String) (r : List Nat)
    (h : fs.getD "alert" (.jobj .nil) = .jobj a) :
    generate_alert_fingerprint (fs.set "stored_at" (.jstr now)) r = (canonicalFp fs, r) := by
  have hh : (fs.set "stored_at" (.jstr now)).getD "alert" (.jobj .nil) = .jobj a := by
    rw [JFields.getD_set_ne fs "stored_at" "alert" _ _ (by decide)]
    exact h
  have hfst : (generate_alert_fingerprint (fs.set "stored_at" (.jstr now)) r).1
      = (generate_alert_fingerprint fs []).1 := by
    refine generate_alert_fingerprint_congr _ fs a a r [] hh h ?_ rfl rfl rfl ?_ ?_ ?_ <;>
      exact JFields.getD_set_ne fs "stored_at" _ _ _ (by decide)
  have hsnd : (generate_alert_fingerprint (fs.set "stored_at" (.jstr now)) r).2 = r := by
    simp only [generate_alert_fingerprint, hh]
  rw [Prod.ext_iff]
  exact ⟨hfst, hsnd⟩

theorem fpD_stampFp (now : String) (fs : JFields) :
    fpD (stampFp now fs) = .jstr (canonicalFp fs) := by
  simp [fpD, stampFp, JFields.getD_set_self]

theorem hasKey_stampFp (now : String) (fs : JFields) :
    (stampFp now fs).hasKey "_fingerprint" = true := by
  simp [stampFp, JFields.hasKey_set_self]

/-! Lemmas about the line loop. -/

theorem processLine_spec (l : Line) (now : String) (rands : List Nat) (hok : l.ok = true) :
    processLine l now rands = ((keptFields l).map (stampFp now), rands) := by
  cases hp : l.parsed with
  | none => simp [processLine, keptFields, hp]
  | some v =>
      cases v with
      | jobj fs =>
          by_cases ht : (fs.getD "alert" .jnull).truthy = true
          · have hobj : (fs.getD "alert" .jnull).isObj = true := by
              simp only [Line.ok, hp, ht] at hok
              simpa using hok
            obtain ⟨a, ha⟩ : ∃ a, fs.getD "alert" .jnull = .jobj a := by
              cases hv : fs.getD "alert" .jnull <;> simp [hv, JVal.isObj] at hobj
              case jobj a => exact ⟨a, rfl⟩
            have ha' : fs.getD "alert" (.jobj .nil) = .jobj a := by
              rw [fs.getD_truthy_congr "alert" (.jobj .nil) ht, ha]
            simp only [processLine, hp, ht, if_pos, keptFields,
              generate_alert_fingerprint_stamped fs a now rands ha', Option.map_some]
            rfl
          · simp [processLine, keptFields, hp, ht]
      | jnull => simp [processLine, keptFields, hp]
      | jbool b => simp [processLine, keptFields, hp]
      | jnum n => simp [processLine, keptFields, hp]
      | jstr s => simp [processLine, keptFields, hp]
      | jarr xs => simp [processLine, keptFields, hp]

theorem processLines_spec (ls : List Line) (now : String) (rands : List Nat)
    (hok : ∀ l ∈ ls, l.ok = true) :
    processLines ls now rands = ((storedFields ls).map (stampFp now), rands) := by
  induction ls with
  | nil => simp [processLines, storedFields]
  | cons l ls ih =>
      rw [processLines, processLine_spec l now rands (hok l (by simp))]
      cases hk : keptFields l with
      | none =>
          simp only [Option.map_none']
          rw [ih (fun x hx => hok x (by simp [hx]))]
          simp [storedFields, List.filterMap_cons, hk]
      | some fs =>
          simp only [Option.map_some']
          rw [ih (fun x hx => hok x (by simp [hx]))]
          simp [storedFields, List.filterMap_cons, hk]

/-! Lemmas about the history-update block. -/

theorem ingestBatch_no_unique (h new : List JFields)
    (hu : (dedupFilter new (histFingerprints h)).1 = []) :
    ingestBatch h new = (h, false, 0) := by
  by_cases he : new.isEmpty = true
  · simp [ingestBatch, he]
  · simp [ingestBatch, he, hu]

theorem ingestBatch_reingest (h0 : List JFields) (sf : List JFields) (now1 now2 : String)
    (hcap : h0.length + sf.length ≤ 10000) :
    ingestBatch (ingestBatch h0 (sf.map (stampFp now1))).1 (sf.map (stampFp now2))
      = ((ingestBatch h0 (sf.map (stampFp now1))).1, false, 0) := by
  apply ingestBatch_no_unique
  apply dedupFilter_fst_nil
  intro x hx
  obtain ⟨fs, hfs, rfl⟩ := List.mem_map.mp hx
  rw [fpD_stampFp]
  have hx1 : stampFp now1 fs ∈ sf.map (stampFp now1) := List.mem_map_of_mem _ hfs
  have hfp := mem_dedupFilter_snd (sf.map (stampFp now1)) (histFingerprints h0)
    (stampFp now1 fs) hx1
  rw [dedupFilter_snd, fpD_stampFp] at hfp
  by_cases hu : (dedupFilter (sf.map (stampFp now1)) (histFingerprints h0)).1 = []
  · rw [ingestBatch_no_unique h0 (sf.map (stampFp now1)) hu]
    rw [hu] at hfp
    simpa using hfp
  · have hne : (sf.map (stampFp now1)).isEmpty = false := by
      cases hmap : sf.map (stampFp now1) with
      | nil => rw [hmap] at hu; simp [dedupFilter] at hu
      | cons a as => rfl
    have hulen : (dedupFilter (sf.map (stampFp now1)) (histFingerprints h0)).1.length
        ≤ sf.length := by
      have := (dedupFilter_sublist (sf.map (stampFp now1)) (histFingerprints h0)).length_le
      simpa using this
    have hunotE : (dedupFilter (sf.map (stampFp now1)) (histFingerprints h0)).1.isEmpty
        = false := by
      cases hcase : (dedupFilter (sf.map (stampFp now1)) (histFingerprints h0)).1 with
      | nil => exact absurd hcase hu
      | cons a as => rfl
    have hcapped : ¬ 10000 <
        (h0 ++ (dedupFilter (sf.map (stampFp now1)) (histFingerprints h0)).1).length := by
      rw [List.length_append]
      omega
    have hres : (ingestBatch h0 (sf.map (stampFp now1))).1
        = h0 ++ (dedupFilter (sf.map (stampFp now1)) (histFingerprints h0)).1 := by
      rw [List.length_append] at hcapped
      simp [ingestBatch, hne, hunotE]
      intro hgt
      exact absurd hgt hcapped
    rw [hres, histFingerprints_append]
    have hkeys : histFingerprints
          (dedupFilter (sf.map (stampFp now1)) (histFingerprints h0)).1
        = (dedupFilter (sf.map (stampFp now1)) (histFingerprints h0)).1.map fpD := by
      apply histFingerprints_eq_map
      intro a ha
      have hamem : a ∈ sf.map (stampFp now1) :=
        (dedupFilter_sublist (sf.map (stampFp now1)) (histFingerprints h0)).mem ha
      obtain ⟨gs, _, rfl⟩ := List.mem_map.mp hamem
      exact hasKey_stampFp now1 gs
    rw [hkeys]
    exact hfp

/-! Lemmas about the newest-first sort. -/

theorem mem_insertDesc (f g : ListedFile) (l : List ListedFile) :
    g ∈ insertDesc f l ↔ g = f ∨ g ∈ l := by
  induction l with
  | nil => simp [insertDesc]
  | cons x l ih =>
      by_cases h : x.mtime ≤ f.mtime
      · simp [insertDesc, h]
      · simp [insertDesc, h, ih]
        tauto

theorem mem_sortDesc (f : ListedFile) (l : List ListedFile) :
    f ∈ sortDesc l ↔ f ∈ l := by
  induction l with
  | nil => simp [sortDesc]
  | cons x l ih =>
      show f ∈ insertDesc x (sortDesc l) ↔ _
      rw [mem_insertDesc]
      simp only [List.mem_cons]
      rw [ih]

/-! The claimed properties. -/

/-- C1, counterexample: the claim that the end offset is persisted only
after all of the batch's alerts are persisted is false on the code.  On a
log with one new alert, the invocation's effect trace contains the cursor
write strictly before the history write, so there is an intermediate point
at which the cursor is persisted while the batch's alerts are not. -/
theorem store_new_alerts_cursor_before_save_cex :
    setCursorBeforeSave
      (store_new_alerts (some [exLineGood]) none [] "2024-05-01T10:00:05" []).effs = true := by
  decide

/-- C1, amended: `store_new_alerts` persists the new end offset first —
the cursor write is the first persistence effect of every invocation on an
existing log, and the history write, when one happens, comes after it (so a
crash between the two loses the batch instead of reprocessing it). -/
theorem store_new_alerts_cursor_persisted_first
    (lines : List Line) (cur : Option Nat) (h : List JFields) (now : String)
    (rands : List Nat) :
    (store_new_alerts (some lines) cur h now rands).effs.head?
        = some (Eff.setCursor (max (cur.getD 0) (totalLen lines)))
    ∧ ((store_new_alerts (some lines) cur h now rands).effs.tail = []
       ∨ (store_new_alerts (some lines) cur h now rands).effs.tail
          = [Eff.saveHistory (store_new_alerts (some lines) cur h now rands).historyFile]) := by
  constructor
  · simp [store_new_alerts]
  · by_cases hsv :
      (ingestBatch h (processLines (suffixFrom lines (cur.getD 0)) now rands).1).2.1 = true
    · right
      simp [store_new_alerts, hsv]
    · left
      simp [store_new_alerts, hsv]

/-- C2: re-running `store_new_alerts` over the same event-log bytes after
the cursor save was lost (cursor reset to the earlier offset) adds nothing:
provided every line in the re-read range is well behaved (its fingerprint
is content-derived, not the random fallback) and the first run's batch fits
the retention cap together with the prior history (so nothing just stored
was immediately evicted), the repeated run returns 0, leaves the history
document unchanged, and performs no history write. -/
theorem store_new_alerts_reingest_no_duplicates
    (lines : List Line) (pos : Nat) (h0 : List JFields) (now1 now2 : String)
    (rands1 rands2 : List Nat)
    (hok : ∀ l ∈ suffixFrom lines pos, l.ok = true)
    (hcap : h0.length + ((processLines (suffixFrom lines pos) now1 rands1).1).length ≤ 10000) :
    (store_new_alerts (some lines) (some pos)
        (store_new_alerts (some lines) (some pos) h0 now1 rands1).historyFile
        now2 rands2).ret = 0
    ∧ (store_new_alerts (some lines) (some pos)
        (store_new_alerts (some lines) (some pos) h0 now1 rands1).historyFile
        now2 rands2).historyFile
      = (store_new_alerts (some lines) (some pos) h0 now1 rands1).historyFile
    ∧ ∀ d, Eff.saveHistory d ∉
        (store_new_alerts (some lines) (some pos)
          (store_new_alerts (some lines) (some pos) h0 now1 rands1).historyFile
          now2 rands2).effs := by
  have hs1 := processLines_spec (suffixFrom lines pos) now1 rands1 hok
  have hs2 := processLines_spec (suffixFrom lines pos) now2 rands2 hok
  have hcap' : h0.length + (storedFields (suffixFrom lines pos)).length ≤ 10000 := by
    rw [hs1] at hcap
    simpa using hcap
  have core := ingestBatch_reingest h0 (storedFields (suffixFrom lines pos)) now1 now2 hcap'
  refine ⟨?_, ?_, ?_⟩ <;> simp [store_new_alerts, hs1, hs2, core]

/-- C3: when a batch of pairwise-distinct, fresh fingerprints overflows the
retention cap, the stored history afterwards is exactly the last 10000
records of (prior history ++ batch) — 10000 records, the most recently
stored ones, oldest evicted first — the history write happens, and the
returned count is the batch size. -/
theorem ingestBatch_retention_cap
    (h batch : List JFields)
    (hnodup : (batch.map fpD).Nodup)
    (hfresh : ∀ a ∈ batch, fpD a ∉ histFingerprints h)
    (hlen : h.length ≤ 10000) (hover : 10000 < h.length + batch.length) :
    ingestBatch h batch
      = ((h ++ batch).drop (h.length + batch.length - 10000), true, batch.length)
    ∧ ((h ++ batch).drop (h.length + batch.length - 10000)).length = 10000 := by
  have hne : batch.isEmpty = false := by
    cases batch with
    | nil => simp at hover; omega
    | cons a as => rfl
  have hu : (dedupFilter batch (histFingerprints h)).1 = batch :=
    dedupFilter_fresh batch (histFingerprints h) hnodup hfresh
  have h2len : 10000 < (h ++ batch).length := by
    rw [List.length_append]
    omega
  constructor
  · simp [ingestBatch, hne, hu, h2len, List.length_append]
    intro hc
    exact absurd hover (by omega)
  · rw [List.length_drop, List.length_append]
    omega

/-- C4: the fingerprint is a pure, deterministic function of the canonical
fields alone.  Two records whose `alert` values are objects and that agree
on timestamp, signature, signature id, severity, source address,
destination address and protocol — in particular records differing only in
field order or in unrecognized extra fields — get identical fingerprints,
independent of the randomness stream. -/
theorem generate_alert_fingerprint_canonical
    (o1 o2 a1 a2 : JFields) (r1 r2 : List Nat)
    (h1 : o1.getD "alert" (.jobj .nil) = .jobj a1)
    (h2 : o2.getD "alert" (.jobj .nil) = .jobj a2)
    (hts : o1.getD "timestamp" (.jstr "") = o2.getD "timestamp" (.jstr ""))
    (hsig : a1.getD "signature" (.jstr "") = a2.getD "signature" (.jstr ""))
    (hsid : a1.getD "signature_id" (.jstr "") = a2.getD "signature_id" (.jstr ""))
    (hsev : a1.getD "severity" (.jstr "") = a2.getD "severity" (.jstr ""))
    (hsrc : o1.getD "src_ip" (.jstr "") = o2.getD "src_ip" (.jstr ""))
    (hdst : o1.getD "dest_ip" (.jstr "") = o2.getD "dest_ip" (.jstr ""))
    (hpr : o1.getD "proto" (.jstr "") = o2.getD "proto" (.jstr "")) :
    (generate_alert_fingerprint o1 r1).1 = (generate_alert_fingerprint o2 r2).1 :=
  generate_alert_fingerprint_congr o1 o2 a1 a2 r1 r2 h1 h2 hts hsig hsid hsev hsrc hdst hpr

/-- C5: adding the same address twice appends exactly one line to the
blacklist file and leaves exactly one in-memory entry; the second call's
only effect is the duplicate notice — no second file write, no second
reload notification. -/
theorem add_ip_to_blacklist_idempotent
    (ip : String) (s : BlacklistState) (hip : ip ∉ s.mem) :
    (add_ip_to_blacklist ip (add_ip_to_blacklist ip s).1).1.fileLines = s.fileLines ++ [ip]
    ∧ (add_ip_to_blacklist ip (add_ip_to_blacklist ip s).1).1.mem = s.mem ++ [ip]
    ∧ (add_ip_to_blacklist ip (add_ip_to_blacklist ip s).1).1.mem.count ip = 1
    ∧ (add_ip_to_blacklist ip s).2
        = [BlEff.appendFile ip,
           BlEff.printMsg ("[BLACKLIST] IP " ++ ip
             ++ " has been added to /etc/suricata/rules/blacklist.txt."),
           BlEff.reloadRules]
    ∧ (add_ip_to_blacklist ip (add_ip_to_blacklist ip s).1).2
        = [BlEff.printMsg ("[BLACKLIST] " ++ ip ++ " already blacklisted.")] := by
  have hmem : ip ∈ s.mem ++ [ip] := by simp
  have hcount : (s.mem ++ [ip]).count ip = 1 := by
    rw [List.count_append]
    rw [List.count_eq_zero.mpr hip]
    simp
  refine ⟨?_, ?_, ?_, ?_, ?_⟩ <;>
    simp [add_ip_to_blacklist, hip, hmem, hcount]

/-- C6, counterexample: promoting a name that is already in preserved
storage is not always a no-op success — when the transient copy no longer
exists, `api_save_csv` hits its `not source.exists()` check first and fails
with 404 even though the file is already saved. -/
theorem api_save_csv_saved_without_transient_cex :
    api_save_csv "a.csv" [] ["a.csv"] = (SaveCsvResult.notFound, ["a.csv"]) := by
  decide

/-- C6, amended: promoting an already-preserved file succeeds as a no-op
only while the transient copy still exists; once the transient copy is
gone the operation fails with NotFound despite the file being preserved.
In both cases the preserved directory is unchanged. -/
theorem api_save_csv_already_saved
    (name : String) (csvDir savedDir : List String) (hs : name ∈ savedDir) :
    (name ∈ csvDir →
      api_save_csv name csvDir savedDir = (SaveCsvResult.alreadySaved, savedDir))
    ∧ (name ∉ csvDir →
      api_save_csv name csvDir savedDir = (SaveCsvResult.notFound, savedDir)) := by
  constructor <;> intro hc <;> simp [api_save_csv, hc, hs]

/-- C7: the age cutoff is exclusive of exactly-equal age on both
operations — a transient file survives `cleanup_old_csvs` iff its mtime is
at or after `now - max_age_minutes * 60` (so a file exactly at the cutoff
is kept and one strictly older is deleted), and it appears in
`list_csv_files` under exactly the same condition. -/
theorem cleanup_list_age_cutoff_boundary
    (csvDir savedDir : List CsvFile) (now max_age_minutes : Int) (f : CsvFile)
    (hf : f ∈ csvDir) :
    (f ∈ (cleanup_old_csvs csvDir now max_age_minutes).1
        ↔ now - max_age_minutes * 60 ≤ f.mtime)
    ∧ (ListedFile.mk f.name f.mtime false
          ∈ list_csv_files csvDir savedDir true now max_age_minutes
        ↔ now - max_age_minutes * 60 ≤ f.mtime) := by
  constructor
  · simp [cleanup_old_csvs, List.mem_filter, hf, not_lt]
  · rw [list_csv_files, mem_sortDesc]
    simp only [if_pos, List.mem_append, List.mem_map, List.mem_filter]
    constructor
    · rintro (⟨g, ⟨hg, hgc⟩, hge⟩ | ⟨g, hg, hge⟩)
      · simp only [ListedFile.mk.injEq] at hge
        rw [← hge.2.1]
        simpa using hgc
      · simp only [ListedFile.mk.injEq] at hge
        exact absurd hge.2.2 (by simp)
    · intro hmt
      exact Or.inl ⟨f, ⟨hf, by simpa using hmt⟩, rfl⟩

/-- C8: the rejection set stays consistent with the bounded history — a
fingerprint that rejects a batch record is the fingerprint of a record of
the loaded (retained) history or of a record being stored by this batch;
and because the set is rebuilt from the persisted history on every
invocation, a fingerprint no longer present there (e.g. evicted at the
cap) does not reject: a record carrying it is stored again. -/
theorem dedup_membership_consistent
    (h batch : List JFields) (a r : JFields)
    (ha : a ∈ batch)
    (_harej : a ∉ (dedupFilter batch (histFingerprints h)).1)
    (hr : fpD r ∉ histFingerprints h) :
    (∃ b, (b ∈ h ∨ b ∈ (dedupFilter batch (histFingerprints h)).1) ∧ fpD b = fpD a)
    ∧ (ingestBatch h [r]).2.1 = true ∧ (ingestBatch h [r]).2.2 = 1 := by
  refine ⟨?_, ?_⟩
  · have hfp := mem_dedupFilter_snd batch (histFingerprints h) a ha
    rw [dedupFilter_snd] at hfp
    rcases List.mem_append.mp hfp with hl | hrh
    · rw [mem_histFingerprints] at hl
      obtain ⟨b, hb, hk, hfpb⟩ := hl
      exact ⟨b, Or.inl hb, hfpb⟩
    · obtain ⟨b, hb, hfpb⟩ := List.mem_map.mp hrh
      exact ⟨b, Or.inr hb, hfpb⟩
  · have hded : (dedupFilter [r] (histFingerprints h)).1 = [r] := by
      simp [dedupFilter, hr]
    constructor <;> simp [ingestBatch, hded]

/-- C9: on an existing log (with the append-only invariant `pos ≤ file
size` and nonempty lines), the persisted cursor is exactly the end-of-file
offset, whatever the lines contained; a later invocation resumes at that
offset and therefore sees only bytes appended after it — in particular a
malformed line is never re-read — and a later invocation on the unchanged
file processes nothing and leaves the history alone. -/
theorem store_new_alerts_cursor_eof_and_skip
    (lines ext : List Line) (pos : Nat) (h h2 : List JFields) (now now2 : String)
    (rands rands2 : List Nat)
    (hle : pos ≤ totalLen lines) (hpos : ∀ l ∈ lines, 0 < l.len) :
    (store_new_alerts (some lines) (some pos) h now rands).cursorFile
        = some (totalLen lines)
    ∧ Eff.setCursor (totalLen lines)
        ∈ (store_new_alerts (some lines) (some pos) h now rands).effs
    ∧ suffixFrom (lines ++ ext) (totalLen lines) = ext
    ∧ (store_new_alerts (some lines) (some (totalLen lines)) h2 now2 rands2).ret = 0
    ∧ (store_new_alerts (some lines) (some (totalLen lines)) h2 now2 rands2).historyFile = h2
    ∧ (store_new_alerts (some lines) (some (totalLen lines)) h2 now2 rands2).effs
        = [Eff.setCursor (totalLen lines)] := by
  have hmax : max pos (totalLen lines) = totalLen lines := max_eq_right hle
  have hemp : suffixFrom lines (totalLen lines) = [] := suffixFrom_totalLen lines hpos
  refine ⟨?_, ?_, suffixFrom_append lines ext hpos, ?_, ?_, ?_⟩
  · simp [store_new_alerts, hmax]
  · simp [store_new_alerts, hmax]
  · simp [store_new_alerts, hemp, processLines, ingestBatch]
  · simp [store_new_alerts, hemp, processLines, ingestBatch]
  · simp [store_new_alerts, hemp, processLines, ingestBatch]

/-- C10: when the newly read range yields no new unique alert (every line
malformed, alert-free, or a duplicate of a stored fingerprint), the
invocation returns 0 and its only persistence effect is the cursor write:
the history document is untouched (no `save_alert_history` call) while the
cursor file is still advanced to the end offset. -/
theorem store_new_alerts_no_new_unique_frame
    (lines : List Line) (pos : Nat) (h : List JFields) (now : String) (rands : List Nat)
    (hdup : (dedupFilter (processLines (suffixFrom lines pos) now rands).1
        (histFingerprints h)).1 = []) :
    (store_new_alerts (some lines) (some pos) h now rands).ret = 0
    ∧ (store_new_alerts (some lines) (some pos) h now rands).historyFile = h
    ∧ (store_new_alerts (some lines) (some pos) h now rands).effs
        = [Eff.setCursor (max pos (totalLen lines))]
    ∧ (store_new_alerts (some lines) (some pos) h now rands).cursorFile
        = some (max pos (totalLen lines)) := by
  have hib := ingestBatch_no_unique h (processLines (suffixFrom lines pos) now rands).1 hdup
  refine ⟨?_, ?_, ?_, ?_⟩ <;> simp [store_new_alerts, hib]

/-! Witnesses: each claim theorem with hypotheses, applied at a concrete
input with the hypotheses discharged there. -/

set_option maxRecDepth 2048

/-- C2 witness: a four-line log (an alert, a malformed line, an alert-free
line, a second alert) ingested twice from offset 0; the repeated run
returns 0. -/
theorem store_new_alerts_reingest_no_duplicates_witness :
    (∀ l ∈ suffixFrom [exLineGood, exLineBad, exLineNoAlert, exLineGood2] 0, l.ok = true)
    ∧ ([] : List JFields).length
        + ((processLines (suffixFrom [exLineGood, exLineBad, exLineNoAlert, exLineGood2] 0)
            "A" []).1).length ≤ 10000
    ∧ (store_new_alerts (some [exLineGood, exLineBad, exLineNoAlert, exLineGood2]) (some 0)
        (store_new_alerts (some [exLineGood, exLineBad, exLineNoAlert, exLineGood2]) (some 0)
          [] "A" []).historyFile "B" []).ret = 0 :=
  ⟨by decide, by decide,
   (store_new_alerts_reingest_no_duplicates
      [exLineGood, exLineBad, exLineNoAlert, exLineGood2] 0 [] "A" "B" [] []
      (by decide) (by decide)).1⟩

/-- C3 witness: a history at the cap of 10000 plus one fresh record leaves
exactly 10000 records, the oldest one evicted. -/
theorem ingestBatch_retention_cap_witness :
    (([exNewRec].map fpD).Nodup ∧ exHistFull.length ≤ 10000
      ∧ 10000 < exHistFull.length + [exNewRec].length)
    ∧ ingestBatch exHistFull [exNewRec]
        = ((exHistFull ++ [exNewRec]).drop (exHistFull.length + [exNewRec].length - 10000),
           true, [exNewRec].length)
    ∧ ((exHistFull ++ [exNewRec]).drop
          (exHistFull.length + [exNewRec].length - 10000)).length = 10000 := by
  have hfresh : ∀ a ∈ [exNewRec], fpD a ∉ histFingerprints exHistFull := by
    intro a ha
    have haa : a = exNewRec := by simpa using ha
    subst haa
    intro hmem
    rw [mem_histFingerprints] at hmem
    obtain ⟨b, hb, hk, hfp⟩ := hmem
    have hbe : b = exOldRec := List.eq_of_mem_replicate hb
    subst hbe
    exact absurd hfp (by decide)
  have e1 : exHistFull.length = 10000 := List.length_replicate 10000 exOldRec
  have hlen : exHistFull.length ≤ 10000 := le_of_eq e1
  have hover : 10000 < exHistFull.length + [exNewRec].length := by
    rw [e1, List.length_singleton]
    omega
  exact ⟨⟨by decide, hlen, hover⟩,
    (ingestBatch_retention_cap exHistFull [exNewRec] (by decide) hfresh hlen hover).1,
    (ingestBatch_retention_cap exHistFull [exNewRec] (by decide) hfresh hlen hover).2⟩

/-- C4 witness: the same record with its fields permuted and an extra
`flow_id` field gets the same fingerprint, under different randomness
streams. -/
theorem generate_alert_fingerprint_canonical_witness :
    (exFields.getD "alert" (.jobj .nil) = .jobj exAlert
      ∧ exReordered.getD "alert" (.jobj .nil) = .jobj exAlert)
    ∧ (generate_alert_fingerprint exFields [7]).1
        = (generate_alert_fingerprint exReordered []).1 :=
  ⟨⟨by decide, by decide⟩,
   generate_alert_fingerprint_canonical exFields exReordered exAlert exAlert [7] []
     (by decide) (by decide) (by decide) rfl rfl rfl (by decide) (by decide) (by decide)⟩

/-- C5 witness: adding `1.2.3.4` twice to an empty blacklist writes one
line. -/
theorem add_ip_to_blacklist_idempotent_witness :
    ("1.2.3.4" ∉ (BlacklistState.mk [] []).mem)
    ∧ (add_ip_to_blacklist "1.2.3.4"
        (add_ip_to_blacklist "1.2.3.4" (BlacklistState.mk [] [])).1).1.fileLines
      = (BlacklistState.mk [] []).fileLines ++ ["1.2.3.4"] :=
  ⟨by decide,
   (add_ip_to_blacklist_idempotent "1.2.3.4" (BlacklistState.mk [] []) (by decide)).1⟩

/-- C6 witness: promoting a name that exists both as transient and saved is
the no-op success. -/
theorem api_save_csv_already_saved_witness :
    ("b.csv" ∈ ["b.csv"])
    ∧ api_save_csv "b.csv" ["b.csv"] ["b.csv"] = (SaveCsvResult.alreadySaved, ["b.csv"]) :=
  ⟨by decide,
   (api_save_csv_already_saved "b.csv" ["b.csv"] ["b.csv"] (by decide)).1 (by decide)⟩

/-- C7 witness: with `now = 600` and a 10-minute limit the cutoff is 0; a
file with mtime exactly 0 survives cleanup and is listed. -/
theorem cleanup_list_age_cutoff_boundary_witness :
    (exEdge ∈ [exEdge, exOlder])
    ∧ (exEdge ∈ (cleanup_old_csvs [exEdge, exOlder] 600 10).1
        ↔ 600 - 10 * 60 ≤ exEdge.mtime)
    ∧ (ListedFile.mk exEdge.name exEdge.mtime false
          ∈ list_csv_files [exEdge, exOlder] [] true 600 10
        ↔ 600 - 10 * 60 ≤ exEdge.mtime) :=
  ⟨by decide,
   (cleanup_list_age_cutoff_boundary [exEdge, exOlder] [] 600 10 exEdge (by decide)).1,
   (cleanup_list_age_cutoff_boundary [exEdge, exOlder] [] 600 10 exEdge (by decide)).2⟩

/-- C8 witness: a re-read copy of a stored record is rejected by the stored
record's fingerprint, while a record with an unseen fingerprint is stored
and counted. -/
theorem dedup_membership_consistent_witness :
    (exDup ∈ [exDup]
      ∧ exDup ∉ (dedupFilter [exDup] (histFingerprints [exStored])).1
      ∧ fpD exNewRec ∉ histFingerprints [exStored])
    ∧ (ingestBatch [exStored] [exNewRec]).2.1 = true
    ∧ (ingestBatch [exStored] [exNewRec]).2.2 = 1 :=
  ⟨⟨by decide, by decide, by decide⟩,
   (dedup_membership_consistent [exStored] [exDup] exDup exNewRec
      (by decide) (by decide) (by decide)).2⟩

/-- C9 witness: a log starting with a malformed line; the cursor lands on
the end of file and the next run over the unchanged file stores nothing. -/
theorem store_new_alerts_cursor_eof_and_skip_witness :
    ((0 : Nat) ≤ totalLen [exLineBad, exLineGood]
      ∧ ∀ l ∈ [exLineBad, exLineGood], 0 < l.len)
    ∧ (store_new_alerts (some [exLineBad, exLineGood]) (some 0) [] "A" []).cursorFile
        = some (totalLen [exLineBad, exLineGood]) :=
  ⟨⟨by decide, by decide⟩,
   (store_new_alerts_cursor_eof_and_skip [exLineBad, exLineGood] [exLineGood2] 0 [] []
      "A" "B" [] [] (by decide) (by decide)).1⟩

/-- C10 witness: re-reading a line whose fingerprint is already stored
returns 0 and advances only the cursor. -/
theorem store_new_alerts_no_new_unique_frame_witness :
    ((dedupFilter (processLines (suffixFrom [exLineGood] 0) "C" []).1
        (histFingerprints [exStored])).1 = [])
    ∧ (store_new_alerts (some [exLineGood]) (some 0) [exStored] "C" []).ret = 0 :=
  ⟨by decide,
   (store_new_alerts_no_new_unique_frame [exLineGood] 0 [exStored] "C" [] (by decide)).1⟩

end Trinetra
